import Mathlib

/-!
Shallow embedding of the closest-block-to-timestamp locator of this repository
(src/main.go, both the original and the hardened variant of the program).

The two search functions, findClosestBlockRPC (EVM JSON-RPC backend, big.Int
arithmetic) and findClosestBlockArweave (Arweave gateway backend, int64
arithmetic), are embedded over explicit source records whose fields model the
remote calls the Go code issues.  Heights and timestamps are mathematical
integers; the 64-bit conversion performed by the Go method big.Int.Int64 is
modelled explicitly by bigIntToInt64, and the hex decoding performed by
go-ethereum hexutil.DecodeBig is modelled by decodeBig.  The int64 arithmetic
of the Arweave variant is embedded as integer arithmetic with truncating
division (Int.tdiv, the semantics of the Go operator / on int64); this is
exact as long as low + high never leaves the int64 range, which holds whenever
the head height is below 2 ^ 62, a bound carried as a hypothesis where it
matters.  The orchestration loop of main is embedded as a fold over abstract
per-network worlds, and the file-system behaviour of the original variant as
explicit state passing.
-/

namespace NetworkParams

/-- Model of the Go method big.Int.Int64, as used at src/main.go lines 53, 55,
190 and 424: the low 64 bits of the magnitude are reinterpreted as a signed
64-bit value, and the result is negated (with int64 wrap-around at the most
negative value) when the receiver is negative.  Values inside the signed
64-bit range are returned unchanged; values outside it wrap. -/
def bigIntToInt64 (x : Int) : Int :=
  let u : Nat := x.natAbs % 2 ^ 64
  let v : Int := if u < 2 ^ 63 then (u : Int) else (u : Int) - 2 ^ 64
  if x < 0 then (if v = -(2 ^ 63) then v else -v) else v

/-- Value of a single hexadecimal digit character, lower or upper case. -/
def hexDigitVal (c : Char) : Option Nat :=
  if ('0' ≤ c ∧ c ≤ '9') then some (c.toNat - Char.toNat '0')
  else if ('a' ≤ c ∧ c ≤ 'f') then some (c.toNat - Char.toNat 'a' + 10)
  else if ('A' ≤ c ∧ c ≤ 'F') then some (c.toNat - Char.toNat 'A' + 10)
  else none

/-- Horner-style accumulation of a hexadecimal digit string; fails on the
first character that is not a hexadecimal digit. -/
def hexValAux (acc : Nat) : List Char → Option Nat
  | [] => some acc
  | c :: cs =>
    match hexDigitVal c with
    | none => none
    | some d => hexValAux (acc * 16 + d) cs

/-- Model of go-ethereum hexutil.DecodeBig, applied to the timestamp field at
src/main.go lines 52, 184, 291 and 418: the input must carry a 0x or 0X
prefix, followed by a nonempty hexadecimal digit string with no leading zero
(except the single digit 0 itself) of at most 64 digits (256 bits); any other
input is rejected, in which case the Go function returns a nil pointer
together with an error. -/
def decodeBig (s : String) : Option Int :=
  match s.data with
  | '0' :: x :: rest =>
    if x = 'x' ∨ x = 'X' then
      if rest.length = 0 then none
      else if 1 < rest.length ∧ rest.head? = some '0' then none
      else if 64 < rest.length then none
      else
        match hexValAux 0 rest with
        | none => none
        | some n => some (n : Int)
    else none
  | _ => none

/-- The fixed target timestamp of main, src/main.go lines 96 and 335. -/
def targetTimestamp : Int := 1717200000

/-- Abstraction of the Arweave client used by findClosestBlockArweave
(src/main.go lines 65 to 93): GetBlockHeight returns the head height or an
error, GetBlockByHeight returns the Timestamp field of the block at the given
height or an error. -/
structure ArSource where
  getBlockHeight : Except String Int
  getBlockByHeight : Int → Except String Int

/-- Abstraction of the JSON-RPC client used by findClosestBlockRPC
(src/main.go lines 28 to 63): blockNumber models the eth-blockNumber call
with its hexutil.Big decoding (an unmarshalling failure is folded into the
error case), getBlock models the eth-getBlockByNumber call and returns the
raw string of the timestamp field of the response; decoding that string is
done by the search itself, as in the Go code. -/
structure RpcSource where
  blockNumber : Except String Int
  getBlock : Int → Except String String

/-- Outcome of the EVM search: a height, an error, or a Go runtime panic
(the nil-pointer dereference that follows a discarded hexutil.DecodeBig
failure at src/main.go line 52). -/
inductive RpcResult where
  | ok (height : Int)
  | err (msg : String)
  | crash
deriving DecidableEq

/-- Loop of findClosestBlockArweave, src/main.go lines 75 to 92.  The Go
division on int64 truncates towards zero, hence Int.tdiv. -/
def arLoop (client : ArSource) (targetTimestamp low high : Int) :
    Except String Int :=
  if _h : low ≤ high then
    match client.getBlockByHeight ((low + high).tdiv 2) with
    | .error e =>
        .error (("error getting block ") ++ toString ((low + high).tdiv 2) ++ (": ") ++ e)
    | .ok ts =>
      if ts = targetTimestamp then .ok ((low + high).tdiv 2)
      else if ts < targetTimestamp then
        arLoop client targetTimestamp ((low + high).tdiv 2 + 1) high
      else arLoop client targetTimestamp low ((low + high).tdiv 2 - 1)
  else .ok low
termination_by (high + 1 - low).toNat
decreasing_by
  · have hb : low ≤ (low + high).tdiv 2 ∧ (low + high).tdiv 2 ≤ high := by
      rcases le_or_lt 0 (low + high) with hs | hs
      · have he := @Int.tdiv_eq_ediv (low + high) 2 hs (by omega)
        omega
      · have h2 := Int.neg_tdiv (low + high) 2
        have he := @Int.tdiv_eq_ediv (-(low + high)) 2 (by omega) (by omega)
        omega
    omega
  · have hb : low ≤ (low + high).tdiv 2 ∧ (low + high).tdiv 2 ≤ high := by
      rcases le_or_lt 0 (low + high) with hs | hs
      · have he := @Int.tdiv_eq_ediv (low + high) 2 hs (by omega)
        omega
      · have h2 := Int.neg_tdiv (low + high) 2
        have he := @Int.tdiv_eq_ediv (-(low + high)) 2 (by omega) (by omega)
        omega
    omega

/-- findClosestBlockArweave, src/main.go lines 65 to 93: fetch the head
height, then binary search over the interval from 1 to the head height. -/
def findClosestBlockArweave (client : ArSource) (targetTimestamp : Int) :
    Except String Int :=
  match client.getBlockHeight with
  | .error e => .error (("error getting latest block height: ") ++ e)
  | .ok high => arLoop client targetTimestamp 1 high

/-- Loop of findClosestBlockRPC, src/main.go lines 40 to 60.  The Go method
big.Int.Div implements Euclidean division, which for the positive divisor 2
coincides with Int.ediv, the division of the Lean operator /.  The decoded
timestamp is compared with the target through big.Int.Int64, exactly as the
Go code does; a decoding failure is discarded by the Go code and the
subsequent method call on the nil pointer panics, modelled by crash. -/
def rpcLoop (rpcClient : RpcSource) (targetTimestamp low high : Int) :
    RpcResult :=
  if _h : low ≤ high then
    match rpcClient.getBlock ((low + high) / 2) with
    | .error e =>
        .err (("error getting block ") ++ toString ((low + high) / 2) ++ (": ") ++ e)
    | .ok s =>
      match decodeBig s with
      | none => .crash
      | some blockTimestamp =>
        if bigIntToInt64 blockTimestamp = targetTimestamp then .ok ((low + high) / 2)
        else if bigIntToInt64 blockTimestamp < targetTimestamp then
          rpcLoop rpcClient targetTimestamp ((low + high) / 2 + 1) high
        else rpcLoop rpcClient targetTimestamp low ((low + high) / 2 - 1)
  else .ok low
termination_by (high + 1 - low).toNat
decreasing_by
  · omega
  · omega

/-- findClosestBlockRPC, src/main.go lines 28 to 63: fetch the head block
number, then binary search over the interval from 1 to the head height. -/
def findClosestBlockRPC (rpcClient : RpcSource) (targetTimestamp : Int) :
    RpcResult :=
  match rpcClient.blockNumber with
  | .error e => .err (("error getting latest block number: ") ++ e)
  | .ok high => rpcLoop rpcClient targetTimestamp 1 high

/-- Instrumented arLoop: identical control flow, additionally returning the
list of heights at which GetBlockByHeight is invoked, in call order.  The
projection to the first component is proved equal to arLoop below. -/
def arLoopTrace (client : ArSource) (targetTimestamp low high : Int) :
    Except String Int × List Int :=
  if _h : low ≤ high then
    match client.getBlockByHeight ((low + high).tdiv 2) with
    | .error e =>
        (.error (("error getting block ") ++ toString ((low + high).tdiv 2) ++ (": ") ++ e),
          [(low + high).tdiv 2])
    | .ok ts =>
      if ts = targetTimestamp then (.ok ((low + high).tdiv 2), [(low + high).tdiv 2])
      else if ts < targetTimestamp then
        ((arLoopTrace client targetTimestamp ((low + high).tdiv 2 + 1) high).1,
          (low + high).tdiv 2 ::
            (arLoopTrace client targetTimestamp ((low + high).tdiv 2 + 1) high).2)
      else
        ((arLoopTrace client targetTimestamp low ((low + high).tdiv 2 - 1)).1,
          (low + high).tdiv 2 ::
            (arLoopTrace client targetTimestamp low ((low + high).tdiv 2 - 1)).2)
  else (.ok low, [])
termination_by (high + 1 - low).toNat
decreasing_by
  · have hb : low ≤ (low + high).tdiv 2 ∧ (low + high).tdiv 2 ≤ high := by
      rcases le_or_lt 0 (low + high) with hs | hs
      · have he := @Int.tdiv_eq_ediv (low + high) 2 hs (by omega)
        omega
      · have h2 := Int.neg_tdiv (low + high) 2
        have he := @Int.tdiv_eq_ediv (-(low + high)) 2 (by omega) (by omega)
        omega
    omega
  · have hb : low ≤ (low + high).tdiv 2 ∧ (low + high).tdiv 2 ≤ high := by
      rcases le_or_lt 0 (low + high) with hs | hs
      · have he := @Int.tdiv_eq_ediv (low + high) 2 hs (by omega)
        omega
      · have h2 := Int.neg_tdiv (low + high) 2
        have he := @Int.tdiv_eq_ediv (-(low + high)) 2 (by omega) (by omega)
        omega
    omega

/-- Instrumented findClosestBlockArweave: the middle component counts the
GetBlockHeight calls issued (the function issues exactly one, before the
loop; the loop itself never queries the head height), the last component
lists the probed heights in order. -/
def findClosestBlockArweaveTrace (client : ArSource) (targetTimestamp : Int) :
    Except String Int × Nat × List Int :=
  match client.getBlockHeight with
  | .error e => (.error (("error getting latest block height: ") ++ e), 1, [])
  | .ok high =>
    let r := arLoopTrace client targetTimestamp 1 high
    (r.1, 1, r.2)

/-- Instrumented rpcLoop: identical control flow, additionally returning the
list of heights at which eth-getBlockByNumber is invoked, in call order. -/
def rpcLoopTrace (rpcClient : RpcSource) (targetTimestamp low high : Int) :
    RpcResult × List Int :=
  if _h : low ≤ high then
    match rpcClient.getBlock ((low + high) / 2) with
    | .error e =>
        (.err (("error getting block ") ++ toString ((low + high) / 2) ++ (": ") ++ e),
          [(low + high) / 2])
    | .ok s =>
      match decodeBig s with
      | none => (.crash, [(low + high) / 2])
      | some blockTimestamp =>
        if bigIntToInt64 blockTimestamp = targetTimestamp then
          (.ok ((low + high) / 2), [(low + high) / 2])
        else if bigIntToInt64 blockTimestamp < targetTimestamp then
          ((rpcLoopTrace rpcClient targetTimestamp ((low + high) / 2 + 1) high).1,
            (low + high) / 2 ::
              (rpcLoopTrace rpcClient targetTimestamp ((low + high) / 2 + 1) high).2)
        else
          ((rpcLoopTrace rpcClient targetTimestamp low ((low + high) / 2 - 1)).1,
            (low + high) / 2 ::
              (rpcLoopTrace rpcClient targetTimestamp low ((low + high) / 2 - 1)).2)
  else (.ok low, [])
termination_by (high + 1 - low).toNat
decreasing_by
  · omega
  · omega

/-- Instrumented findClosestBlockRPC: the middle component counts the
eth-blockNumber calls issued (exactly one, before the loop), the last
component lists the probed heights in order. -/
def findClosestBlockRPCTrace (rpcClient : RpcSource) (targetTimestamp : Int) :
    RpcResult × Nat × List Int :=
  match rpcClient.blockNumber with
  | .error e => (.err (("error getting latest block number: ") ++ e), 1, [])
  | .ok high =>
    let r := rpcLoopTrace rpcClient targetTimestamp 1 high
    (r.1, 1, r.2)

/-- Specification predicate for the result of the search over a timestamp
sequence ts on heights 1 to H with target t: either r is a height of the
range whose timestamp equals the target (the short-circuit return on an
exact probe), or r is the right-side boundary, the smallest height whose
timestamp is at least the target, settling at H + 1 when the target exceeds
every timestamp; in the second case every height below r has a timestamp
strictly below the target, so r is never an equidistant choice on the left
side. -/
def SearchOutcome (ts : Int → Int) (t H r : Int) : Prop :=
  (1 ≤ r ∧ r ≤ H ∧ ts r = t) ∨
  (1 ≤ r ∧ r ≤ H + 1 ∧ (∀ h, 1 ≤ h → h < r → ts h < t) ∧ (r ≤ H → t ≤ ts r))

/-- Full-precision variant of rpcLoop, following the spec sentence that the
decoded big-integer timestamp is compared against the target while
preserving full precision: identical to rpcLoop except that the decoded
value is not passed through big.Int.Int64 before the comparisons.  Used to
state how the code, which does truncate, deviates from and refines this
description. -/
def rpcLoopExact (rpcClient : RpcSource) (targetTimestamp low high : Int) :
    RpcResult :=
  if _h : low ≤ high then
    match rpcClient.getBlock ((low + high) / 2) with
    | .error e =>
        .err (("error getting block ") ++ toString ((low + high) / 2) ++ (": ") ++ e)
    | .ok s =>
      match decodeBig s with
      | none => .crash
      | some blockTimestamp =>
        if blockTimestamp = targetTimestamp then .ok ((low + high) / 2)
        else if blockTimestamp < targetTimestamp then
          rpcLoopExact rpcClient targetTimestamp ((low + high) / 2 + 1) high
        else rpcLoopExact rpcClient targetTimestamp low ((low + high) / 2 - 1)
  else .ok low
termination_by (high + 1 - low).toNat
decreasing_by
  · omega
  · omega

/-- Full-precision variant of findClosestBlockRPC, built on rpcLoopExact. -/
def findClosestBlockRPCExact (rpcClient : RpcSource) (targetTimestamp : Int) :
    RpcResult :=
  match rpcClient.blockNumber with
  | .error e => .err (("error getting latest block number: ") ++ e)
  | .ok high => rpcLoopExact rpcClient targetTimestamp 1 high

/-- In-memory network start-block mapping: the Go map
Config.NetworkStartBlock of src/main.go lines 24 to 26. -/
def Cfg : Type := String → Option Int

/-- Go map assignment, src/main.go lines 222 and 456. -/
def setCfg (cfg : Cfg) (k : String) (v : Int) : Cfg :=
  fun x => if x = k then some v else cfg x

/-- External world of one network in the loop of main: either an EVM network
(src/main.go lines 383 to 424 of the hardened variant, identically lines 149
to 190 of the original) or an Arweave network (lines 426 to 452).  dialErr
models a failure of rpc.Dial, which in particular occurs when the endpoint
environment variable is missing so that the URL is empty; checkErr models a
failure of the eth-getBlockByNumber responsiveness check at line 394; src is
the client driving the search; detail models the final block-detail fetch at
the found height (for the EVM case the raw timestamp string of the response,
for Arweave the timestamp integer). -/
inductive NetWorld where
  | eth (dialErr : Option String) (checkErr : Option String)
      (src : RpcSource) (detail : Int → Except String String)
  | ar (clientErr : Option String) (src : ArSource)
      (detail : Int → Except String Int)

/-- One iteration of the per-network loop of main over the world of that
network.  A some result means the loop continues with the given mapping: on
any fetch error the iteration logs and continues with the mapping unchanged,
on success the mapping entry of the network is overwritten (through
big.Int.Int64 in the EVM case, line 424).  A none result means the Go
process panics: either the search itself crashed, or the timestamp field of
the final detail fetch failed to decode, in which case the discarded
hexutil.DecodeBig error of line 418 leaves a nil pointer that line 421
dereferences. -/
def stepNetwork (cfg : Cfg) (name : String) (w : NetWorld) : Option Cfg :=
  match w with
  | .eth dialErr checkErr src detail =>
    match dialErr with
    | some _ => some cfg
    | none =>
      match checkErr with
      | some _ => some cfg
      | none =>
        match findClosestBlockRPC src targetTimestamp with
        | .err _ => some cfg
        | .crash => none
        | .ok closestBlock =>
          match detail closestBlock with
          | .error _ => some cfg
          | .ok s =>
            match decodeBig s with
            | none => none
            | some _ => some (setCfg cfg name (bigIntToInt64 closestBlock))
  | .ar clientErr src detail =>
    match clientErr with
    | some _ => some cfg
    | none =>
      match findClosestBlockArweave src targetTimestamp with
      | .error _ => some cfg
      | .ok closestBlock =>
        match detail closestBlock with
        | .error _ => some cfg
        | .ok _ => some (setCfg cfg name closestBlock)

/-- The per-network loop of main (shared by both variants, src/main.go lines
144 to 225 and 378 to 459): networks are processed in order; a per-network
error leaves the mapping unchanged and processing continues with the next
network; a runtime panic (none) terminates the whole process. -/
def runNetworks (cfg : Cfg) : List (String × NetWorld) → Option Cfg
  | [] => some cfg
  | (name, w) :: rest =>
    match stepNetwork cfg name w with
    | none => none
    | some cfg2 => runNetworks cfg2 rest

/-- src/main.go line 462 of the hardened variant: the target minus nine
thirty-day months in seconds. -/
def farcasterTimestamp : Int := targetTimestamp - (9 * 30 * 24 * 60 * 60)

/-- Mapping produced by the hardened variant of main from the initial
mapping and the per-network worlds: the loop, followed by the unconditional
farcaster assignment of src/main.go lines 461 to 465. -/
def runHardened (cfg : Cfg) (nets : List (String × NetWorld)) : Option Cfg :=
  match runNetworks cfg nets with
  | none => none
  | some cfg2 => some (setCfg cfg2 ("farcaster") farcasterTimestamp)

/-- A top-level JSON configuration document: the network-start-block object
plus the remaining top-level keys, kept abstractly as raw text. -/
structure JsonDoc where
  networkStartBlock : Cfg
  extra : List (String × String)

/-- Model of encoding-json Unmarshal into the Go struct Config (src/main.go
lines 24 to 26 and 110 to 114): only the declared field network_start_block
is read; every unknown top-level key of the document is ignored. -/
def unmarshalConfig (d : JsonDoc) : Cfg := d.networkStartBlock

/-- Model of json.MarshalIndent of the Go struct Config (src/main.go lines
228 to 231): the document produced contains exactly the one declared field
network_start_block; no other top-level key is emitted. -/
def marshalConfig (cfg : Cfg) : JsonDoc :=
  { networkStartBlock := cfg, extra := [] }

/-- Document written at the end of a run of the original variant, as a
function of the initial document and the per-network worlds; none when a
panic terminated the process before the write. -/
def writtenDoc (d : JsonDoc) (nets : List (String × NetWorld)) :
    Option JsonDoc :=
  match runNetworks (unmarshalConfig d) nets with
  | none => none
  | some cfg => some (marshalConfig cfg)

/-- File-system state: a mapping from path to file contents. -/
def Fs : Type := String → Option String

/-- Effect of a successful os.Rename on the file-system state. -/
def renameFile (fs : Fs) (src dst : String) : Fs := fun p =>
  if p = dst then fs src else if p = src then none else fs p

/-- Outcome of the original variant of main with respect to the file system.
The fatal constructors are the log.Fatalf exits of src/main.go lines 101,
107, 113, 119 and 235; netCrash is a runtime panic inside the per-network
loop; done carries the state holding between the rename and the final write
together with the final state. -/
inductive OrigRun where
  | fatalEnv
  | fatalRead
  | fatalParse
  | fatalRename
  | fatalWrite (fsMid : Fs)
  | netCrash (fsMid : Fs)
  | done (fsMid fsFinal : Fs)

/-- File-system behaviour of the original variant of main (src/main.go lines
95 to 239): load the environment (fatal on error, line 101), read and parse
config.json (fatal on error), rename config.json to config.json.old (fatal
on error, line 119), run the per-network loop, which performs no file-system
operation, then write the updated document back to config.json (fatal on
error, no retry).  envOk, renameOk and writeOk model the outcomes of the
corresponding operating-system calls; parse models json.Unmarshal on the
raw contents; render models json.MarshalIndent of the final mapping. -/
def origMainFs (fs : Fs) (envOk : Bool) (parse : String → Option Cfg)
    (nets : List (String × NetWorld)) (renameOk writeOk : Bool)
    (render : Cfg → String) : OrigRun :=
  if envOk = false then .fatalEnv
  else
    match fs ("config.json") with
    | none => .fatalRead
    | some content =>
      match parse content with
      | none => .fatalParse
      | some cfg =>
        if renameOk = false then .fatalRename
        else
          let fsMid := renameFile fs ("config.json") ("config.json.old")
          match runNetworks cfg nets with
          | none => .netCrash fsMid
          | some cfg2 =>
            if writeOk = false then .fatalWrite fsMid
            else
              .done fsMid
                (fun p => if p = ("config.json") then some (render cfg2) else fsMid p)

/-- The truncating midpoint stays inside a nonempty interval. -/
theorem tdiv_two_bounds {low high : Int} (h : low ≤ high) :
    low ≤ (low + high).tdiv 2 ∧ (low + high).tdiv 2 ≤ high := by
  rcases le_or_lt 0 (low + high) with hs | hs
  · have he := @Int.tdiv_eq_ediv (low + high) 2 hs (by omega)
    omega
  · have h2 := Int.neg_tdiv (low + high) 2
    have he := @Int.tdiv_eq_ediv (-(low + high)) 2 (by omega) (by omega)
    omega

/-- On the reachable states of the search, where low is at least 1, the
truncating int64 midpoint of the Arweave variant agrees with the Euclidean
big.Int midpoint of the EVM variant. -/
theorem tdiv_two_eq_ediv {low high : Int} (h1 : 1 ≤ low) (h2 : low ≤ high) :
    (low + high).tdiv 2 = (low + high) / 2 :=
  @Int.tdiv_eq_ediv (low + high) 2 (by omega) (by omega)

/-- big.Int.Int64 is the identity on values inside the signed 64-bit
range. -/
theorem bigIntToInt64_of_int64 {v : Int} (h1 : -(2 ^ 63) ≤ v)
    (h2 : v < 2 ^ 63) : bigIntToInt64 v = v := by
  simp only [bigIntToInt64]
  split_ifs <;> omega

/-- Invariant-based characterisation of the loop of findClosestBlockArweave
over any interval of an interval-wise infallible, monotone source: the loop
succeeds and its result satisfies the exact-match-or-right-boundary
outcome. -/
theorem arLoop_outcome (client : ArSource) (ts : Int → Int) (t H : Int)
    (mono : ∀ h1 h2, 1 ≤ h1 → h1 ≤ h2 → h2 ≤ H → ts h1 ≤ ts h2) :
    ∀ low high, 1 ≤ low → low ≤ high + 1 → high ≤ H →
    (∀ h, low ≤ h → h ≤ high → client.getBlockByHeight h = .ok (ts h)) →
    (∀ h, 1 ≤ h → h < low → ts h < t) →
    (∀ h, high < h → h ≤ H → t ≤ ts h) →
    ∃ r, arLoop client t low high = .ok r ∧
      ((low ≤ r ∧ r ≤ high ∧ ts r = t) ∨
       (1 ≤ r ∧ r ≤ H + 1 ∧ (∀ h, 1 ≤ h → h < r → ts h < t) ∧
        (r ≤ H → t ≤ ts r))) := by
  intro low high
  induction low, high using arLoop.induct client t with
  | case1 low high hle e heq =>
    intro hl1 hlh hhH hsrc hleft hright
    have hb := tdiv_two_bounds hle
    rw [hsrc ((low + high).tdiv 2) (by omega) (by omega)] at heq
    simp at heq
  | case2 low high hle heq =>
    intro hl1 hlh hhH hsrc hleft hright
    have hb := tdiv_two_bounds hle
    have h2 := hsrc ((low + high).tdiv 2) (by omega) (by omega)
    rw [h2] at heq
    injection heq with hts
    refine ⟨(low + high).tdiv 2, ?_, Or.inl ⟨by omega, by omega, hts⟩⟩
    rw [arLoop, dif_pos hle, h2]
    simp [hts]
  | case3 low high hle tsv heq hne hlt ih =>
    intro hl1 hlh hhH hsrc hleft hright
    have hb := tdiv_two_bounds hle
    have h2 := hsrc ((low + high).tdiv 2) (by omega) (by omega)
    rw [h2] at heq
    injection heq with htsv
    obtain ⟨r, hr, hout⟩ := ih (by omega) (by omega) hhH
      (fun h ha hb2 => hsrc h (by omega) hb2)
      (fun h ha hb2 => by
        rcases lt_or_le h low with hc | hc
        · exact hleft h ha hc
        · have hm := mono h ((low + high).tdiv 2) ha (by omega) (by omega)
          omega)
      hright
    refine ⟨r, ?_, ?_⟩
    · rw [arLoop, dif_pos hle, h2]
      simp only []
      rw [htsv, if_neg hne, if_pos hlt]
      exact hr
    · rcases hout with ⟨ha, hb2, hc⟩ | hout
      · exact Or.inl ⟨by omega, hb2, hc⟩
      · exact Or.inr hout
  | case4 low high hle tsv heq hne hlt ih =>
    intro hl1 hlh hhH hsrc hleft hright
    have hb := tdiv_two_bounds hle
    have h2 := hsrc ((low + high).tdiv 2) (by omega) (by omega)
    rw [h2] at heq
    injection heq with htsv
    obtain ⟨r, hr, hout⟩ := ih hl1 (by omega) (by omega)
      (fun h ha hb2 => hsrc h ha (by omega))
      hleft
      (fun h ha hb2 => by
        rcases le_or_lt h high with hc | hc
        · have hm := mono ((low + high).tdiv 2) h (by omega) (by omega) (by omega)
          omega
        · exact hright h hc hb2)
    refine ⟨r, ?_, ?_⟩
    · rw [arLoop, dif_pos hle, h2]
      simp only []
      rw [htsv, if_neg hne, if_neg hlt]
      exact hr
    · rcases hout with ⟨ha, hb2, hc⟩ | hout
      · exact Or.inl ⟨ha, by omega, hc⟩
      · exact Or.inr hout
  | case5 low high hle =>
    intro hl1 hlh hhH hsrc hleft hright
    refine ⟨low, ?_,
      Or.inr ⟨hl1, by omega, hleft, fun hlH => hright low (by omega) hlH⟩⟩
    rw [arLoop, dif_neg hle]

/-- Invariant-based characterisation of the loop of findClosestBlockRPC over
any interval of an interval-wise infallible, decodable, monotone source
whose timestamps fit in int64 (so that the big.Int.Int64 conversion the
code applies before each comparison is the identity). -/
theorem rpcLoop_outcome (rpcClient : RpcSource) (ts : Int → Int)
    (str : Int → String) (t H : Int)
    (mono : ∀ h1 h2, 1 ≤ h1 → h1 ≤ h2 → h2 ≤ H → ts h1 ≤ ts h2) :
    ∀ low high, 1 ≤ low → low ≤ high + 1 → high ≤ H →
    (∀ h, low ≤ h → h ≤ high → rpcClient.getBlock h = .ok (str h)) →
    (∀ h, low ≤ h → h ≤ high → decodeBig (str h) = some (ts h)) →
    (∀ h, low ≤ h → h ≤ high → -(2 ^ 63) ≤ ts h ∧ ts h < 2 ^ 63) →
    (∀ h, 1 ≤ h → h < low → ts h < t) →
    (∀ h, high < h → h ≤ H → t ≤ ts h) →
    ∃ r, rpcLoop rpcClient t low high = .ok r ∧
      ((low ≤ r ∧ r ≤ high ∧ ts r = t) ∨
       (1 ≤ r ∧ r ≤ H + 1 ∧ (∀ h, 1 ≤ h → h < r → ts h < t) ∧
        (r ≤ H → t ≤ ts r))) := by
  intro low high
  induction low, high using rpcLoop.induct rpcClient t with
  | case1 low high hle e heq =>
    intro hl1 hlh hhH hsrc hdec hrng hleft hright
    have hb : low ≤ (low + high) / 2 ∧ (low + high) / 2 ≤ high := by omega
    rw [hsrc ((low + high) / 2) (by omega) (by omega)] at heq
    simp at heq
  | case2 low high hle s heq hdnone =>
    intro hl1 hlh hhH hsrc hdec hrng hleft hright
    have hb : low ≤ (low + high) / 2 ∧ (low + high) / 2 ≤ high := by omega
    have h2 := hsrc ((low + high) / 2) (by omega) (by omega)
    rw [h2] at heq
    injection heq with hs
    have hd2 := hdec ((low + high) / 2) (by omega) (by omega)
    rw [hs] at hd2
    rw [hd2] at hdnone
    simp at hdnone
  | case3 low high hle s heq bt hdsome hcmp =>
    intro hl1 hlh hhH hsrc hdec hrng hleft hright
    have hb : low ≤ (low + high) / 2 ∧ (low + high) / 2 ≤ high := by omega
    have h2 := hsrc ((low + high) / 2) (by omega) (by omega)
    rw [h2] at heq
    injection heq with hs
    have hd2 := hdec ((low + high) / 2) (by omega) (by omega)
    rw [hs] at hd2
    have hbt : bt = ts ((low + high) / 2) := by
      have h3 := hd2.symm.trans hdsome
      injection h3 with h4
      exact h4.symm
    have hr2 := hrng ((low + high) / 2) (by omega) (by omega)
    have hid := bigIntToInt64_of_int64 hr2.1 hr2.2
    rw [hbt] at hcmp
    rw [hid] at hcmp
    refine ⟨(low + high) / 2, ?_, Or.inl ⟨by omega, by omega, hcmp⟩⟩
    rw [rpcLoop, dif_pos hle, h2, hs]
    dsimp only
    rw [hdsome]
    dsimp only
    rw [hbt, hid, if_pos hcmp]
  | case4 low high hle s heq bt hdsome hne hlt ih =>
    intro hl1 hlh hhH hsrc hdec hrng hleft hright
    have hb : low ≤ (low + high) / 2 ∧ (low + high) / 2 ≤ high := by omega
    have h2 := hsrc ((low + high) / 2) (by omega) (by omega)
    rw [h2] at heq
    injection heq with hs
    have hd2 := hdec ((low + high) / 2) (by omega) (by omega)
    rw [hs] at hd2
    have hbt : bt = ts ((low + high) / 2) := by
      have h3 := hd2.symm.trans hdsome
      injection h3 with h4
      exact h4.symm
    have hr2 := hrng ((low + high) / 2) (by omega) (by omega)
    have hid := bigIntToInt64_of_int64 hr2.1 hr2.2
    rw [hbt] at hne hlt
    obtain ⟨r, hr, hout⟩ := ih (by omega) (by omega) hhH
      (fun h ha hb2 => hsrc h (by omega) hb2)
      (fun h ha hb2 => hdec h (by omega) hb2)
      (fun h ha hb2 => hrng h (by omega) hb2)
      (fun h ha hb2 => by
        rcases lt_or_le h low with hc | hc
        · exact hleft h ha hc
        · have hm := mono h ((low + high) / 2) ha (by omega) (by omega)
          omega)
      hright
    refine ⟨r, ?_, ?_⟩
    · rw [rpcLoop, dif_pos hle, h2, hs]
      dsimp only
      rw [hdsome]
      dsimp only
      rw [hbt, if_neg hne, if_pos hlt]
      exact hr
    · rcases hout with ⟨ha, hb2, hc⟩ | hout
      · exact Or.inl ⟨by omega, hb2, hc⟩
      · exact Or.inr hout
  | case5 low high hle s heq bt hdsome hne hlt ih =>
    intro hl1 hlh hhH hsrc hdec hrng hleft hright
    have hb : low ≤ (low + high) / 2 ∧ (low + high) / 2 ≤ high := by omega
    have h2 := hsrc ((low + high) / 2) (by omega) (by omega)
    rw [h2] at heq
    injection heq with hs
    have hd2 := hdec ((low + high) / 2) (by omega) (by omega)
    rw [hs] at hd2
    have hbt : bt = ts ((low + high) / 2) := by
      have h3 := hd2.symm.trans hdsome
      injection h3 with h4
      exact h4.symm
    have hr2 := hrng ((low + high) / 2) (by omega) (by omega)
    have hid := bigIntToInt64_of_int64 hr2.1 hr2.2
    rw [hbt] at hne hlt
    obtain ⟨r, hr, hout⟩ := ih hl1 (by omega) (by omega)
      (fun h ha hb2 => hsrc h ha (by omega))
      (fun h ha hb2 => hdec h ha (by omega))
      (fun h ha hb2 => hrng h ha (by omega))
      hleft
      (fun h ha hb2 => by
        rcases le_or_lt h high with hc | hc
        · have hm := mono ((low + high) / 2) h (by omega) (by omega) (by omega)
          omega
        · exact hright h hc hb2)
    refine ⟨r, ?_, ?_⟩
    · rw [rpcLoop, dif_pos hle, h2, hs]
      dsimp only
      rw [hdsome]
      dsimp only
      rw [hbt, if_neg hne, if_neg hlt]
      exact hr
    · rcases hout with ⟨ha, hb2, hc⟩ | hout
      · exact Or.inl ⟨ha, by omega, hc⟩
      · exact Or.inr hout
  | case6 low high hle =>
    intro hl1 hlh hhH hsrc hdec hrng hleft hright
    refine ⟨low, ?_,
      Or.inr ⟨hl1, by omega, hleft, fun hlH => hright low (by omega) hlH⟩⟩
    rw [rpcLoop, dif_neg hle]

/-- When the target is strictly above every timestamp of the interval, the
Arweave loop runs its lower bound up and returns high + 1. -/
theorem arLoop_above_all (client : ArSource) (ts : Int → Int) (t : Int) :
    ∀ low high, 1 ≤ low → low ≤ high + 1 →
    (∀ h, low ≤ h → h ≤ high → client.getBlockByHeight h = .ok (ts h)) →
    (∀ h, low ≤ h → h ≤ high → ts h < t) →
    arLoop client t low high = .ok (high + 1) := by
  intro low high
  induction low, high using arLoop.induct client t with
  | case1 low high hle e heq =>
    intro hl1 hlh hsrc hall
    have hb := tdiv_two_bounds hle
    rw [hsrc ((low + high).tdiv 2) (by omega) (by omega)] at heq
    simp at heq
  | case2 low high hle heq =>
    intro hl1 hlh hsrc hall
    have hb := tdiv_two_bounds hle
    have h2 := hsrc ((low + high).tdiv 2) (by omega) (by omega)
    rw [h2] at heq
    injection heq with hts
    have := hall ((low + high).tdiv 2) (by omega) (by omega)
    omega
  | case3 low high hle tsv heq hne hlt ih =>
    intro hl1 hlh hsrc hall
    have hb := tdiv_two_bounds hle
    have h2 := hsrc ((low + high).tdiv 2) (by omega) (by omega)
    rw [h2] at heq
    injection heq with htsv
    rw [arLoop, dif_pos hle, h2]
    simp only []
    rw [htsv, if_neg hne, if_pos hlt]
    exact ih (by omega) (by omega)
      (fun h ha hb2 => hsrc h (by omega) hb2)
      (fun h ha hb2 => hall h (by omega) hb2)
  | case4 low high hle tsv heq hne hlt ih =>
    intro hl1 hlh hsrc hall
    have hb := tdiv_two_bounds hle
    have h2 := hsrc ((low + high).tdiv 2) (by omega) (by omega)
    rw [h2] at heq
    injection heq with htsv
    have := hall ((low + high).tdiv 2) (by omega) (by omega)
    omega
  | case5 low high hle =>
    intro hl1 hlh hsrc hall
    rw [arLoop, dif_neg hle]
    have : low = high + 1 := by omega
    rw [this]

/-- When the target is strictly above every timestamp of the interval (and
the timestamps fit in int64, so the conversion is the identity), the EVM
loop runs its lower bound up and returns high + 1. -/
theorem rpcLoop_above_all (rpcClient : RpcSource) (ts : Int → Int)
    (str : Int → String) (t : Int) :
    ∀ low high, 1 ≤ low → low ≤ high + 1 →
    (∀ h, low ≤ h → h ≤ high → rpcClient.getBlock h = .ok (str h)) →
    (∀ h, low ≤ h → h ≤ high → decodeBig (str h) = some (ts h)) →
    (∀ h, low ≤ h → h ≤ high → -(2 ^ 63) ≤ ts h ∧ ts h < 2 ^ 63) →
    (∀ h, low ≤ h → h ≤ high → ts h < t) →
    rpcLoop rpcClient t low high = .ok (high + 1) := by
  intro low high
  induction low, high using rpcLoop.induct rpcClient t with
  | case1 low high hle e heq =>
    intro hl1 hlh hsrc hdec hrng hall
    have hb : low ≤ (low + high) / 2 ∧ (low + high) / 2 ≤ high := by omega
    rw [hsrc ((low + high) / 2) (by omega) (by omega)] at heq
    simp at heq
  | case2 low high hle s heq hdnone =>
    intro hl1 hlh hsrc hdec hrng hall
    have hb : low ≤ (low + high) / 2 ∧ (low + high) / 2 ≤ high := by omega
    have h2 := hsrc ((low + high) / 2) (by omega) (by omega)
    rw [h2] at heq
    injection heq with hs
    have hd2 := hdec ((low + high) / 2) (by omega) (by omega)
    rw [hs] at hd2
    rw [hd2] at hdnone
    simp at hdnone
  | case3 low high hle s heq bt hdsome hcmp =>
    intro hl1 hlh hsrc hdec hrng hall
    have hb : low ≤ (low + high) / 2 ∧ (low + high) / 2 ≤ high := by omega
    have h2 := hsrc ((low + high) / 2) (by omega) (by omega)
    rw [h2] at heq
    injection heq with hs
    have hd2 := hdec ((low + high) / 2) (by omega) (by omega)
    rw [hs] at hd2
    have hbt : bt = ts ((low + high) / 2) := by
      have h3 := hd2.symm.trans hdsome
      injection h3 with h4
      exact h4.symm
    have hr2 := hrng ((low + high) / 2) (by omega) (by omega)
    have hid := bigIntToInt64_of_int64 hr2.1 hr2.2
    rw [hbt, hid] at hcmp
    have := hall ((low + high) / 2) (by omega) (by omega)
    omega
  | case4 low high hle s heq bt hdsome hne hlt ih =>
    intro hl1 hlh hsrc hdec hrng hall
    have hb : low ≤ (low + high) / 2 ∧ (low + high) / 2 ≤ high := by omega
    have h2 := hsrc ((low + high) / 2) (by omega) (by omega)
    rw [h2] at heq
    injection heq with hs
    have hd2 := hdec ((low + high) / 2) (by omega) (by omega)
    rw [hs] at hd2
    have hbt : bt = ts ((low + high) / 2) := by
      have h3 := hd2.symm.trans hdsome
      injection h3 with h4
      exact h4.symm
    rw [rpcLoop, dif_pos hle, h2, hs]
    dsimp only
    rw [hdsome]
    dsimp only
    rw [hbt] at hne hlt
    rw [hbt, if_neg hne, if_pos hlt]
    exact ih (by omega) (by omega)
      (fun h ha hb2 => hsrc h (by omega) hb2)
      (fun h ha hb2 => hdec h (by omega) hb2)
      (fun h ha hb2 => hrng h (by omega) hb2)
      (fun h ha hb2 => hall h (by omega) hb2)
  | case5 low high hle s heq bt hdsome hne hlt ih =>
    intro hl1 hlh hsrc hdec hrng hall
    have hb : low ≤ (low + high) / 2 ∧ (low + high) / 2 ≤ high := by omega
    have h2 := hsrc ((low + high) / 2) (by omega) (by omega)
    rw [h2] at heq
    injection heq with hs
    have hd2 := hdec ((low + high) / 2) (by omega) (by omega)
    rw [hs] at hd2
    have hbt : bt = ts ((low + high) / 2) := by
      have h3 := hd2.symm.trans hdsome
      injection h3 with h4
      exact h4.symm
    have hr2 := hrng ((low + high) / 2) (by omega) (by omega)
    have hid := bigIntToInt64_of_int64 hr2.1 hr2.2
    rw [hbt, hid] at hlt
    have := hall ((low + high) / 2) (by omega) (by omega)
    omega
  | case6 low high hle =>
    intro hl1 hlh hsrc hdec hrng hall
    rw [rpcLoop, dif_neg hle]
    have : low = high + 1 := by omega
    rw [this]

/-- The instrumented Arweave loop computes the same result as the loop of
the program. -/
theorem arLoopTrace_fst (client : ArSource) (t : Int) :
    ∀ low high, (arLoopTrace client t low high).1 = arLoop client t low high := by
  intro low high
  induction low, high using arLoopTrace.induct client t with
  | case1 low high hle e heq =>
    rw [arLoopTrace, arLoop, dif_pos hle, dif_pos hle, heq]
  | case2 low high hle heq =>
    rw [arLoopTrace, arLoop, dif_pos hle, dif_pos hle, heq]
    simp
  | case3 low high hle tsv heq hne hlt ih =>
    rw [arLoopTrace, arLoop, dif_pos hle, dif_pos hle, heq]
    dsimp only
    rw [if_neg hne, if_neg hne, if_pos hlt, if_pos hlt]
    exact ih
  | case4 low high hle tsv heq hne hlt ih =>
    rw [arLoopTrace, arLoop, dif_pos hle, dif_pos hle, heq]
    dsimp only
    rw [if_neg hne, if_neg hne, if_neg hlt, if_neg hlt]
    exact ih
  | case5 low high hle =>
    rw [arLoopTrace, arLoop, dif_neg hle, dif_neg hle]

/-- The instrumented EVM loop computes the same result as the loop of the
program. -/
theorem rpcLoopTrace_fst (rpcClient : RpcSource) (t : Int) :
    ∀ low high,
    (rpcLoopTrace rpcClient t low high).1 = rpcLoop rpcClient t low high := by
  intro low high
  induction low, high using rpcLoopTrace.induct rpcClient t with
  | case1 low high hle e heq =>
    rw [rpcLoopTrace, rpcLoop, dif_pos hle, dif_pos hle, heq]
  | case2 low high hle s heq hdnone =>
    rw [rpcLoopTrace, rpcLoop, dif_pos hle, dif_pos hle, heq]
    dsimp only
    rw [hdnone]
  | case3 low high hle s heq bt hdsome hcmp =>
    rw [rpcLoopTrace, rpcLoop, dif_pos hle, dif_pos hle, heq]
    dsimp only
    rw [hdsome]
    dsimp only
    rw [if_pos hcmp, if_pos hcmp]
  | case4 low high hle s heq bt hdsome hne hlt ih =>
    rw [rpcLoopTrace, rpcLoop, dif_pos hle, dif_pos hle, heq]
    dsimp only
    rw [hdsome]
    dsimp only
    rw [if_neg hne, if_neg hne, if_pos hlt, if_pos hlt]
    exact ih
  | case5 low high hle s heq bt hdsome hne hlt ih =>
    rw [rpcLoopTrace, rpcLoop, dif_pos hle, dif_pos hle, heq]
    dsimp only
    rw [hdsome]
    dsimp only
    rw [if_neg hne, if_neg hne, if_neg hlt, if_neg hlt]
    exact ih
  | case6 low high hle =>
    rw [rpcLoopTrace, rpcLoop, dif_neg hle, dif_neg hle]

/-- Step of the logarithmic probe bound: a probe plus the bound of a halved
interval is within the bound of the interval. -/
theorem probeBound_step {sz sz2 : Nat} (h1 : 1 ≤ sz) (h2 : sz2 ≤ sz / 2) :
    (if sz2 = 0 then 0 else Nat.log 2 sz2 + 1) + 1 ≤
      (if sz = 0 then 0 else Nat.log 2 sz + 1) := by
  rcases Nat.eq_zero_or_pos sz2 with hz | hz
  · rw [if_pos hz, if_neg (by omega)]
    omega
  · have hs2 : 2 ≤ sz := by omega
    have hlog1 : 0 < Nat.log 2 sz := Nat.log_pos (by norm_num) hs2
    have hmono : Nat.log 2 sz2 ≤ Nat.log 2 (sz / 2) := Nat.log_mono_right h2
    have hdiv := Nat.log_div_base 2 sz
    rw [if_neg (by omega), if_neg (by omega)]
    omega

/-- Logarithmic bound on the number of probes of the Arweave loop, for every
source and every interval: at most floor-log2 of the interval size, plus
one. -/
theorem arLoopTrace_length (client : ArSource) (t : Int) :
    ∀ low high, (arLoopTrace client t low high).2.length ≤
      (if (high + 1 - low).toNat = 0 then 0
       else Nat.log 2 ((high + 1 - low).toNat) + 1) := by
  intro low high
  induction low, high using arLoopTrace.induct client t with
  | case1 low high hle e heq =>
    rw [arLoopTrace, dif_pos hle, heq]
    rw [if_neg (by omega)]
    simp
  | case2 low high hle heq =>
    rw [arLoopTrace, dif_pos hle, heq]
    dsimp only
    rw [if_pos rfl]
    rw [if_neg (by omega)]
    simp
  | case3 low high hle tsv heq hne hlt ih =>
    rw [arLoopTrace, dif_pos hle, heq]
    dsimp only
    rw [if_neg hne, if_pos hlt]
    dsimp only [List.length_cons]
    have hb := tdiv_two_bounds hle
    have hstep : (high + 1 - ((low + high).tdiv 2 + 1)).toNat ≤
        (high + 1 - low).toNat / 2 := by
      rcases le_or_lt 0 (low + high) with hs | hs
      · have he := @Int.tdiv_eq_ediv (low + high) 2 hs (by omega)
        omega
      · have h2 := Int.neg_tdiv (low + high) 2
        have he := @Int.tdiv_eq_ediv (-(low + high)) 2 (by omega) (by omega)
        omega
    have hps := @probeBound_step ((high + 1 - low).toNat)
      ((high + 1 - ((low + high).tdiv 2 + 1)).toNat) (by omega) hstep
    omega
  | case4 low high hle tsv heq hne hlt ih =>
    rw [arLoopTrace, dif_pos hle, heq]
    dsimp only
    rw [if_neg hne, if_neg hlt]
    dsimp only [List.length_cons]
    have hb := tdiv_two_bounds hle
    have hstep : ((low + high).tdiv 2 - 1 + 1 - low).toNat ≤
        (high + 1 - low).toNat / 2 := by
      rcases le_or_lt 0 (low + high) with hs | hs
      · have he := @Int.tdiv_eq_ediv (low + high) 2 hs (by omega)
        omega
      · have h2 := Int.neg_tdiv (low + high) 2
        have he := @Int.tdiv_eq_ediv (-(low + high)) 2 (by omega) (by omega)
        omega
    have hps := @probeBound_step ((high + 1 - low).toNat)
      (((low + high).tdiv 2 - 1 + 1 - low).toNat) (by omega) hstep
    omega
  | case5 low high hle =>
    rw [arLoopTrace, dif_neg hle]
    simp

/-- Logarithmic bound on the number of probes of the EVM loop, for every
source and every interval. -/
theorem rpcLoopTrace_length (rpcClient : RpcSource) (t : Int) :
    ∀ low high, (rpcLoopTrace rpcClient t low high).2.length ≤
      (if (high + 1 - low).toNat = 0 then 0
       else Nat.log 2 ((high + 1 - low).toNat) + 1) := by
  intro low high
  induction low, high using rpcLoopTrace.induct rpcClient t with
  | case1 low high hle e heq =>
    rw [rpcLoopTrace, dif_pos hle, heq]
    rw [if_neg (by omega)]
    simp
  | case2 low high hle s heq hdnone =>
    rw [rpcLoopTrace, dif_pos hle, heq]
    dsimp only
    rw [hdnone]
    rw [if_neg (by omega)]
    simp
  | case3 low high hle s heq bt hdsome hcmp =>
    rw [rpcLoopTrace, dif_pos hle, heq]
    dsimp only
    rw [hdsome]
    dsimp only
    rw [if_pos hcmp]
    rw [if_neg (by omega)]
    simp
  | case4 low high hle s heq bt hdsome hne hlt ih =>
    rw [rpcLoopTrace, dif_pos hle, heq]
    dsimp only
    rw [hdsome]
    dsimp only
    rw [if_neg hne, if_pos hlt]
    dsimp only [List.length_cons]
    have hstep : (high + 1 - ((low + high) / 2 + 1)).toNat ≤
        (high + 1 - low).toNat / 2 := by omega
    have hps := @probeBound_step ((high + 1 - low).toNat)
      ((high + 1 - ((low + high) / 2 + 1)).toNat) (by omega) hstep
    omega
  | case5 low high hle s heq bt hdsome hne hlt ih =>
    rw [rpcLoopTrace, dif_pos hle, heq]
    dsimp only
    rw [hdsome]
    dsimp only
    rw [if_neg hne, if_neg hlt]
    dsimp only [List.length_cons]
    have hstep : ((low + high) / 2 - 1 + 1 - low).toNat ≤
        (high + 1 - low).toNat / 2 := by omega
    have hps := @probeBound_step ((high + 1 - low).toNat)
      (((low + high) / 2 - 1 + 1 - low).toNat) (by omega) hstep
    omega
  | case6 low high hle =>
    rw [rpcLoopTrace, dif_neg hle]
    simp

/-- If the Arweave loop ends in an error, the failing fetch is the last
probe of the trace, every earlier probe succeeded, and the message carries
the failing height in decimal followed by the underlying cause. -/
theorem arLoopTrace_err (client : ArSource) (t : Int) :
    ∀ low high msg, (arLoopTrace client t low high).1 = .error msg →
    ∃ ps m c, (arLoopTrace client t low high).2 = ps ++ [m] ∧
      client.getBlockByHeight m = .error c ∧
      msg = ("error getting block ") ++ toString m ++ (": ") ++ c ∧
      (∀ p ∈ ps, ∃ v, client.getBlockByHeight p = .ok v) := by
  intro low high
  induction low, high using arLoopTrace.induct client t with
  | case1 low high hle e heq =>
    intro msg hmsg
    rw [arLoopTrace, dif_pos hle, heq] at hmsg ⊢
    dsimp only at hmsg ⊢
    injection hmsg with h2
    exact ⟨[], (low + high).tdiv 2, e, by simp, heq, h2.symm, by simp⟩
  | case2 low high hle heq =>
    intro msg hmsg
    rw [arLoopTrace, dif_pos hle, heq] at hmsg
    simp at hmsg
  | case3 low high hle tsv heq hne hlt ih =>
    intro msg hmsg
    rw [arLoopTrace, dif_pos hle, heq] at hmsg ⊢
    dsimp only at hmsg ⊢
    rw [if_neg hne, if_pos hlt] at hmsg ⊢
    dsimp only at hmsg ⊢
    obtain ⟨ps, m, c, hps, hm, hmsg2, hok⟩ := ih msg hmsg
    refine ⟨(low + high).tdiv 2 :: ps, m, c, ?_, hm, hmsg2, ?_⟩
    · rw [hps]
      simp
    · intro p hp
      rcases List.mem_cons.mp hp with hp1 | hp2
      · exact ⟨tsv, hp1 ▸ heq⟩
      · exact hok p hp2
  | case4 low high hle tsv heq hne hlt ih =>
    intro msg hmsg
    rw [arLoopTrace, dif_pos hle, heq] at hmsg ⊢
    dsimp only at hmsg ⊢
    rw [if_neg hne, if_neg hlt] at hmsg ⊢
    dsimp only at hmsg ⊢
    obtain ⟨ps, m, c, hps, hm, hmsg2, hok⟩ := ih msg hmsg
    refine ⟨(low + high).tdiv 2 :: ps, m, c, ?_, hm, hmsg2, ?_⟩
    · rw [hps]
      simp
    · intro p hp
      rcases List.mem_cons.mp hp with hp1 | hp2
      · exact ⟨tsv, hp1 ▸ heq⟩
      · exact hok p hp2
  | case5 low high hle =>
    intro msg hmsg
    rw [arLoopTrace, dif_neg hle] at hmsg
    simp at hmsg

/-- If the Arweave loop ends with a height, every probed fetch succeeded. -/
theorem arLoopTrace_ok (client : ArSource) (t : Int) :
    ∀ low high r, (arLoopTrace client t low high).1 = .ok r →
    ∀ p ∈ (arLoopTrace client t low high).2,
      ∃ v, client.getBlockByHeight p = .ok v := by
  intro low high
  induction low, high using arLoopTrace.induct client t with
  | case1 low high hle e heq =>
    intro r hr
    rw [arLoopTrace, dif_pos hle, heq] at hr
    simp at hr
  | case2 low high hle heq =>
    intro r hr p hp
    rw [arLoopTrace, dif_pos hle, heq] at hp
    dsimp only at hp
    rw [if_pos rfl] at hp
    dsimp only at hp
    rcases List.mem_singleton.mp hp with h2
    exact ⟨t, h2 ▸ heq⟩
  | case3 low high hle tsv heq hne hlt ih =>
    intro r hr p hp
    rw [arLoopTrace, dif_pos hle, heq] at hr hp
    dsimp only at hr hp
    rw [if_neg hne, if_pos hlt] at hr hp
    dsimp only at hr hp
    rcases List.mem_cons.mp hp with hp1 | hp2
    · exact ⟨tsv, hp1 ▸ heq⟩
    · exact ih r hr p hp2
  | case4 low high hle tsv heq hne hlt ih =>
    intro r hr p hp
    rw [arLoopTrace, dif_pos hle, heq] at hr hp
    dsimp only at hr hp
    rw [if_neg hne, if_neg hlt] at hr hp
    dsimp only at hr hp
    rcases List.mem_cons.mp hp with hp1 | hp2
    · exact ⟨tsv, hp1 ▸ heq⟩
    · exact ih r hr p hp2
  | case5 low high hle =>
    intro r hr p hp
    rw [arLoopTrace, dif_neg hle] at hp
    simp at hp

/-- If the EVM loop ends in an error, the failing fetch is the last probe of
the trace, every earlier probe succeeded as a fetch, and the message carries
the failing height in decimal followed by the underlying cause. -/
theorem rpcLoopTrace_err (rpcClient : RpcSource) (t : Int) :
    ∀ low high msg, (rpcLoopTrace rpcClient t low high).1 = .err msg →
    ∃ ps m c, (rpcLoopTrace rpcClient t low high).2 = ps ++ [m] ∧
      rpcClient.getBlock m = .error c ∧
      msg = ("error getting block ") ++ toString m ++ (": ") ++ c ∧
      (∀ p ∈ ps, ∃ v, rpcClient.getBlock p = .ok v) := by
  intro low high
  induction low, high using rpcLoopTrace.induct rpcClient t with
  | case1 low high hle e heq =>
    intro msg hmsg
    rw [rpcLoopTrace, dif_pos hle, heq] at hmsg ⊢
    dsimp only at hmsg ⊢
    injection hmsg with h2
    exact ⟨[], (low + high) / 2, e, by simp, heq, h2.symm, by simp⟩
  | case2 low high hle s heq hdnone =>
    intro msg hmsg
    rw [rpcLoopTrace, dif_pos hle, heq] at hmsg
    dsimp only at hmsg
    rw [hdnone] at hmsg
    simp at hmsg
  | case3 low high hle s heq bt hdsome hcmp =>
    intro msg hmsg
    rw [rpcLoopTrace, dif_pos hle, heq] at hmsg
    dsimp only at hmsg
    rw [hdsome] at hmsg
    dsimp only at hmsg
    rw [if_pos hcmp] at hmsg
    simp at hmsg
  | case4 low high hle s heq bt hdsome hne hlt ih =>
    intro msg hmsg
    rw [rpcLoopTrace, dif_pos hle, heq] at hmsg ⊢
    dsimp only at hmsg ⊢
    rw [hdsome] at hmsg ⊢
    dsimp only at hmsg ⊢
    rw [if_neg hne, if_pos hlt] at hmsg ⊢
    dsimp only at hmsg ⊢
    obtain ⟨ps, m, c, hps, hm, hmsg2, hok⟩ := ih msg hmsg
    refine ⟨(low + high) / 2 :: ps, m, c, ?_, hm, hmsg2, ?_⟩
    · rw [hps]
      simp
    · intro p hp
      rcases List.mem_cons.mp hp with hp1 | hp2
      · exact ⟨s, hp1 ▸ heq⟩
      · exact hok p hp2
  | case5 low high hle s heq bt hdsome hne hlt ih =>
    intro msg hmsg
    rw [rpcLoopTrace, dif_pos hle, heq] at hmsg ⊢
    dsimp only at hmsg ⊢
    rw [hdsome] at hmsg ⊢
    dsimp only at hmsg ⊢
    rw [if_neg hne, if_neg hlt] at hmsg ⊢
    dsimp only at hmsg ⊢
    obtain ⟨ps, m, c, hps, hm, hmsg2, hok⟩ := ih msg hmsg
    refine ⟨(low + high) / 2 :: ps, m, c, ?_, hm, hmsg2, ?_⟩
    · rw [hps]
      simp
    · intro p hp
      rcases List.mem_cons.mp hp with hp1 | hp2
      · exact ⟨s, hp1 ▸ heq⟩
      · exact hok p hp2
  | case6 low high hle =>
    intro msg hmsg
    rw [rpcLoopTrace, dif_neg hle] at hmsg
    simp at hmsg

/-- If the EVM loop ends with a height, every probed fetch succeeded. -/
theorem rpcLoopTrace_ok (rpcClient : RpcSource) (t : Int) :
    ∀ low high r, (rpcLoopTrace rpcClient t low high).1 = .ok r →
    ∀ p ∈ (rpcLoopTrace rpcClient t low high).2,
      ∃ v, rpcClient.getBlock p = .ok v := by
  intro low high
  induction low, high using rpcLoopTrace.induct rpcClient t with
  | case1 low high hle e heq =>
    intro r hr
    rw [rpcLoopTrace, dif_pos hle, heq] at hr
    simp at hr
  | case2 low high hle s heq hdnone =>
    intro r hr
    rw [rpcLoopTrace, dif_pos hle, heq] at hr
    dsimp only at hr
    rw [hdnone] at hr
    simp at hr
  | case3 low high hle s heq bt hdsome hcmp =>
    intro r hr p hp
    rw [rpcLoopTrace, dif_pos hle, heq] at hp
    dsimp only at hp
    rw [hdsome] at hp
    dsimp only at hp
    rw [if_pos hcmp] at hp
    dsimp only at hp
    rcases List.mem_singleton.mp hp with h2
    exact ⟨s, h2 ▸ heq⟩
  | case4 low high hle s heq bt hdsome hne hlt ih =>
    intro r hr p hp
    rw [rpcLoopTrace, dif_pos hle, heq] at hr hp
    dsimp only at hr hp
    rw [hdsome] at hr hp
    dsimp only at hr hp
    rw [if_neg hne, if_pos hlt] at hr hp
    dsimp only at hr hp
    rcases List.mem_cons.mp hp with hp1 | hp2
    · exact ⟨s, hp1 ▸ heq⟩
    · exact ih r hr p hp2
  | case5 low high hle s heq bt hdsome hne hlt ih =>
    intro r hr p hp
    rw [rpcLoopTrace, dif_pos hle, heq] at hr hp
    dsimp only at hr hp
    rw [hdsome] at hr hp
    dsimp only at hr hp
    rw [if_neg hne, if_neg hlt] at hr hp
    dsimp only at hr hp
    rcases List.mem_cons.mp hp with hp1 | hp2
    · exact ⟨s, hp1 ▸ heq⟩
    · exact ih r hr p hp2
  | case6 low high hle =>
    intro r hr p hp
    rw [rpcLoopTrace, dif_neg hle] at hp
    simp at hp

/-- Overwriting one key of the mapping never removes another key. -/
theorem setCfg_preserves (cfg : Cfg) (n : String) (x : Int) (k : String)
    (v : Int) (hk : cfg k = some v) : ∃ u, setCfg cfg n x k = some u := by
  unfold setCfg
  by_cases h : k = n
  · exact ⟨x, by rw [if_pos h]⟩
  · exact ⟨v, by rw [if_neg h]; exact hk⟩

/-- One iteration of the network loop never removes a key from the
mapping. -/
theorem stepNetwork_preserves (cfg : Cfg) (name : String) (w : NetWorld)
    (cfg2 : Cfg) (hstep : stepNetwork cfg name w = some cfg2) (k : String)
    (v : Int) (hk : cfg k = some v) : ∃ u, cfg2 k = some u := by
  cases w with
  | eth dialErr checkErr src detail =>
    unfold stepNetwork at hstep
    repeat' split at hstep
    all_goals
      first
      | (exfalso; exact Option.noConfusion hstep)
      | (injection hstep with h2
         exact h2 ▸ ⟨v, hk⟩)
      | (injection hstep with h2
         exact h2 ▸ setCfg_preserves cfg name _ k v hk)
  | ar clientErr src detail =>
    unfold stepNetwork at hstep
    repeat' split at hstep
    all_goals
      first
      | (exfalso; exact Option.noConfusion hstep)
      | (injection hstep with h2
         exact h2 ▸ ⟨v, hk⟩)
      | (injection hstep with h2
         exact h2 ▸ setCfg_preserves cfg name _ k v hk)

/-- The network loop never removes a key from the mapping: every key of the
initial mapping is still present (possibly overwritten) at the end. -/
theorem runNetworks_preserves (nets : List (String × NetWorld)) :
    ∀ cfg cfg2, runNetworks cfg nets = some cfg2 →
    ∀ k v, cfg k = some v → ∃ u, cfg2 k = some u := by
  induction nets with
  | nil =>
    intro cfg cfg2 h k v hk
    unfold runNetworks at h
    injection h with h2
    exact h2 ▸ ⟨v, hk⟩
  | cons nw rest ih =>
    obtain ⟨name, w⟩ := nw
    intro cfg cfg2 h k v hk
    unfold runNetworks at h
    cases hs : stepNetwork cfg name w with
    | none =>
      rw [hs] at h
      simp at h
    | some cfgm =>
      rw [hs] at h
      dsimp only at h
      obtain ⟨u, hu⟩ := stepNetwork_preserves cfg name w cfgm hs k v hk
      exact ih cfgm cfg2 h k u hu

/-- hexutil.DecodeBig only produces nonnegative values: a decoded hex digit
string is a natural number. -/
theorem decodeBig_nonneg (s : String) (v : Int) (h : decodeBig s = some v) :
    0 ≤ v := by
  unfold decodeBig at h
  repeat' split at h
  all_goals
    first
    | exact Option.noConfusion h
    | (injection h with h2
       rw [← h2]
       exact Int.natCast_nonneg _)

/-- C1: for every monotonically non-decreasing timestamp sequence on heights
1 to H (H at least 1) and every target, each of the two searches, run over an
infallible source realising that sequence, succeeds and returns either the
height of an exact match or the smallest height whose timestamp is at least
the target (settling at H + 1 when the target exceeds every timestamp), and
never an equidistant closest choice on the left side.  The head height is
bounded by 2 ^ 62 and the timestamps by the signed 64-bit range, the region
on which the int64 and big.Int.Int64 arithmetic of the Go code is exact and
which this embedding models. -/
theorem c1_locator_right_boundary_or_exact
    (client : ArSource) (rpcClient : RpcSource) (ts : Int → Int)
    (str : Int → String) (t H : Int)
    (hH : 1 ≤ H) (hH64 : H < 2 ^ 62)
    (mono : ∀ h1 h2, 1 ≤ h1 → h1 ≤ h2 → h2 ≤ H → ts h1 ≤ ts h2)
    (hahead : client.getBlockHeight = .ok H)
    (hasrc : ∀ h, 1 ≤ h → h ≤ H → client.getBlockByHeight h = .ok (ts h))
    (hrhead : rpcClient.blockNumber = .ok H)
    (hrsrc : ∀ h, 1 ≤ h → h ≤ H → rpcClient.getBlock h = .ok (str h))
    (hdec : ∀ h, 1 ≤ h → h ≤ H → decodeBig (str h) = some (ts h))
    (hrng : ∀ h, 1 ≤ h → h ≤ H → -(2 ^ 63) ≤ ts h ∧ ts h < 2 ^ 63) :
    (∃ r, findClosestBlockArweave client t = .ok r ∧ SearchOutcome ts t H r) ∧
    (∃ r, findClosestBlockRPC rpcClient t = .ok r ∧ SearchOutcome ts t H r) := by
  constructor
  · obtain ⟨r, hr, hout⟩ := arLoop_outcome client ts t H mono 1 H (by omega)
      (by omega) (by omega)
      (fun h h1 h2 => hasrc h h1 h2)
      (fun h h1 h2 => by omega)
      (fun h h1 h2 => by omega)
    refine ⟨r, ?_, ?_⟩
    · unfold findClosestBlockArweave
      rw [hahead]
      exact hr
    · unfold SearchOutcome
      rcases hout with ⟨h1, h2, h3⟩ | hout
      · exact Or.inl ⟨h1, h2, h3⟩
      · exact Or.inr hout
  · obtain ⟨r, hr, hout⟩ := rpcLoop_outcome rpcClient ts str t H mono 1 H (by omega)
      (by omega) (by omega)
      (fun h h1 h2 => hrsrc h h1 h2)
      (fun h h1 h2 => hdec h h1 h2)
      (fun h h1 h2 => hrng h h1 h2)
      (fun h h1 h2 => by omega)
      (fun h h1 h2 => by omega)
    refine ⟨r, ?_, ?_⟩
    · unfold findClosestBlockRPC
      rw [hrhead]
      exact hr
    · unfold SearchOutcome
      rcases hout with ⟨h1, h2, h3⟩ | hout
      · exact Or.inl ⟨h1, h2, h3⟩
      · exact Or.inr hout

/-- Witness for C1 at a concrete two-height source with timestamps 100 and
200 and target 150: all hypotheses hold and the conclusion is obtained by
applying the theorem. -/
theorem c1_witness :
    (1:Int) ≤ 2 ∧
    ((∃ r, findClosestBlockArweave
        ⟨.ok 2, fun h => .ok (if h = 1 then 100 else 200)⟩ 150 = .ok r ∧
        SearchOutcome (fun h => if h = 1 then 100 else 200) 150 2 r) ∧
     (∃ r, findClosestBlockRPC
        ⟨.ok 2, fun h => .ok (if h = 1 then ("0x64") else ("0xc8"))⟩ 150 = .ok r ∧
        SearchOutcome (fun h => if h = 1 then 100 else 200) 150 2 r)) := by
  refine ⟨by norm_num, ?_⟩
  exact c1_locator_right_boundary_or_exact
    ⟨.ok 2, fun h => .ok (if h = 1 then 100 else 200)⟩
    ⟨.ok 2, fun h => .ok (if h = 1 then ("0x64") else ("0xc8"))⟩
    (fun h => if h = 1 then 100 else 200)
    (fun h => if h = 1 then ("0x64") else ("0xc8"))
    150 2 (by norm_num) (by norm_num)
    (by
      intro h1 h2 hh1 hh12 hh2
      dsimp only
      split_ifs <;> omega)
    rfl
    (fun h h1 h2 => rfl)
    rfl
    (fun h h1 h2 => rfl)
    (by
      intro h h1 h2
      have hc : h = 1 ∨ h = 2 := by omega
      rcases hc with hc | hc <;> subst hc <;> decide)
    (by
      intro h h1 h2
      dsimp only
      split_ifs <;> constructor <;> decide)

/-- C1 counterexample: the claim quantifies over all monotone timestamp
sequences, and for EVM chains the spec insists timestamps may exceed the
signed 64-bit range; on the monotone sequence 100, 2 ^ 64 + 5, 2 ^ 64 + 7
with the fixed target, no probed timestamp equals the target, the smallest
height with timestamp at least the target is 2, yet findClosestBlockRPC
compares through big.Int.Int64 (2 ^ 64 + 5 wraps to 5) and returns 4. -/
theorem c1_counterexample :
    (∀ h1 h2 : Int, 1 ≤ h1 → h1 ≤ h2 → h2 ≤ 3 →
      (fun h => if h = 1 then (100:Int) else if h = 2 then 2 ^ 64 + 5
        else 2 ^ 64 + 7) h1 ≤
      (fun h => if h = 1 then (100:Int) else if h = 2 then 2 ^ 64 + 5
        else 2 ^ 64 + 7) h2) ∧
    (∀ h : Int, 1 ≤ h → h ≤ 3 →
      decodeBig ((fun h => if h = 1 then ("0x64")
        else if h = 2 then ("0x10000000000000005")
        else ("0x10000000000000007")) h) =
      some ((fun h => if h = 1 then (100:Int) else if h = 2 then 2 ^ 64 + 5
        else 2 ^ 64 + 7) h)) ∧
    findClosestBlockRPC
      ⟨.ok 3, fun h => .ok (if h = 1 then ("0x64")
        else if h = 2 then ("0x10000000000000005")
        else ("0x10000000000000007"))⟩ targetTimestamp = .ok 4 ∧
    ¬ SearchOutcome
      (fun h => if h = 1 then (100:Int) else if h = 2 then 2 ^ 64 + 5
        else 2 ^ 64 + 7) targetTimestamp 3 4 := by
  refine ⟨?_, ?_, ?_, ?_⟩
  · intro h1 h2 hh1 hh12 hh2
    dsimp only
    split_ifs <;> omega
  · intro h h1 h2
    have hc : h = 1 ∨ h = 2 ∨ h = 3 := by omega
    rcases hc with hc | hc | hc <;> subst hc <;> decide
  · have hd1 : decodeBig ("0x64") = some 100 := by decide
    have hd2 : decodeBig ("0x10000000000000005") =
        some 18446744073709551621 := by decide
    have hd3 : decodeBig ("0x10000000000000007") =
        some 18446744073709551623 := by decide
    have hb2 : bigIntToInt64 18446744073709551621 = 5 := by decide
    have hb3 : bigIntToInt64 18446744073709551623 = 7 := by decide
    unfold findClosestBlockRPC
    dsimp only
    rw [rpcLoop, dif_pos (by norm_num)]
    norm_num
    rw [hd2]
    dsimp only
    rw [hb2]
    rw [if_neg (by decide), if_pos (by decide)]
    rw [rpcLoop, dif_pos (by norm_num)]
    norm_num
    rw [hd3]
    dsimp only
    rw [hb3]
    rw [if_neg (by decide), if_pos (by decide)]
    rw [rpcLoop, dif_neg (by norm_num)]
  · intro hout
    rcases hout with ⟨h1, h2, h3⟩ | ⟨h1, h2, h3, h4⟩
    · omega
    · have h5 := h3 2 (by norm_num) (by norm_num)
      dsimp only at h5
      rw [if_neg (by norm_num), if_pos rfl] at h5
      have : targetTimestamp = 1717200000 := rfl
      omega

/-- C2: when the target is strictly above every timestamp of the range, both
searches terminate with low settled at H + 1 and return H + 1, a height
strictly outside the searched range. -/
theorem c2_target_above_all_returns_succ_head
    (client : ArSource) (rpcClient : RpcSource) (ts : Int → Int)
    (str : Int → String) (t H : Int)
    (hH : 1 ≤ H) (hH64 : H < 2 ^ 62)
    (hahead : client.getBlockHeight = .ok H)
    (hasrc : ∀ h, 1 ≤ h → h ≤ H → client.getBlockByHeight h = .ok (ts h))
    (hrhead : rpcClient.blockNumber = .ok H)
    (hrsrc : ∀ h, 1 ≤ h → h ≤ H → rpcClient.getBlock h = .ok (str h))
    (hdec : ∀ h, 1 ≤ h → h ≤ H → decodeBig (str h) = some (ts h))
    (ht : t < 2 ^ 63)
    (habove : ∀ h, 1 ≤ h → h ≤ H → ts h < t) :
    findClosestBlockArweave client t = .ok (H + 1) ∧
    findClosestBlockRPC rpcClient t = .ok (H + 1) ∧ H < H + 1 := by
  refine ⟨?_, ?_, by omega⟩
  · unfold findClosestBlockArweave
    rw [hahead]
    exact arLoop_above_all client ts t 1 H (by omega) (by omega)
      (fun h h1 h2 => hasrc h h1 h2) (fun h h1 h2 => habove h h1 h2)
  · unfold findClosestBlockRPC
    rw [hrhead]
    refine rpcLoop_above_all rpcClient ts str t 1 H (by omega) (by omega)
      (fun h h1 h2 => hrsrc h h1 h2) (fun h h1 h2 => hdec h h1 h2)
      ?_ (fun h h1 h2 => habove h h1 h2)
    intro h h1 h2
    have hnn := decodeBig_nonneg (str h) (ts h) (hdec h h1 h2)
    have hab := habove h h1 h2
    constructor <;> omega

/-- Witness for C2 at the same concrete two-height source with target 300,
strictly above both timestamps: both searches return 3, which is 2 + 1. -/
theorem c2_witness :
    (1:Int) ≤ 2 ∧
    (findClosestBlockArweave
        ⟨.ok 2, fun h => .ok (if h = 1 then 100 else 200)⟩ 300 = .ok (2 + 1) ∧
     findClosestBlockRPC
        ⟨.ok 2, fun h => .ok (if h = 1 then ("0x64") else ("0xc8"))⟩ 300 = .ok (2 + 1) ∧
     (2:Int) < 2 + 1) := by
  refine ⟨by norm_num, ?_⟩
  exact c2_target_above_all_returns_succ_head
    ⟨.ok 2, fun h => .ok (if h = 1 then 100 else 200)⟩
    ⟨.ok 2, fun h => .ok (if h = 1 then ("0x64") else ("0xc8"))⟩
    (fun h => if h = 1 then 100 else 200)
    (fun h => if h = 1 then ("0x64") else ("0xc8"))
    300 2 (by norm_num) (by norm_num)
    rfl
    (fun h h1 h2 => rfl)
    rfl
    (fun h h1 h2 => rfl)
    (by
      intro h h1 h2
      have hc : h = 1 ∨ h = 2 := by omega
      rcases hc with hc | hc <;> subst hc <;> decide)
    (by norm_num)
    (by
      intro h h1 h2
      dsimp only
      split_ifs <;> omega)

/-- C3: both search loops are total functions of this embedding, so every
run terminates; for every source and target, a run with head height H at
least 1 issues at most ceil-log2 of H plus one timestamp fetches, and
exactly one head-height fetch.  The instrumented runs compute the same
result as the functions of the program. -/
theorem c3_fetch_bounds (client : ArSource) (rpcClient : RpcSource)
    (t hA hR : Int)
    (hahead : client.getBlockHeight = .ok hA) (hA1 : 1 ≤ hA)
    (hrhead : rpcClient.blockNumber = .ok hR) (hR1 : 1 ≤ hR) :
    ((findClosestBlockArweaveTrace client t).2.2.length ≤
        Nat.clog 2 hA.toNat + 1 ∧
      (findClosestBlockArweaveTrace client t).2.1 = 1 ∧
      (findClosestBlockArweaveTrace client t).1 =
        findClosestBlockArweave client t) ∧
    ((findClosestBlockRPCTrace rpcClient t).2.2.length ≤
        Nat.clog 2 hR.toNat + 1 ∧
      (findClosestBlockRPCTrace rpcClient t).2.1 = 1 ∧
      (findClosestBlockRPCTrace rpcClient t).1 =
        findClosestBlockRPC rpcClient t) := by
  constructor
  · unfold findClosestBlockArweaveTrace
    unfold findClosestBlockArweave
    rw [hahead]
    dsimp only
    refine ⟨?_, rfl, arLoopTrace_fst client t 1 hA⟩
    have hlen := arLoopTrace_length client t 1 hA
    rw [if_neg (by omega)] at hlen
    have hclog := Nat.log_le_clog 2 (hA + 1 - 1).toNat
    have heq : (hA + 1 - 1).toNat = hA.toNat := by omega
    rw [heq] at hlen hclog
    omega
  · unfold findClosestBlockRPCTrace
    unfold findClosestBlockRPC
    rw [hrhead]
    dsimp only
    refine ⟨?_, rfl, rpcLoopTrace_fst rpcClient t 1 hR⟩
    have hlen := rpcLoopTrace_length rpcClient t 1 hR
    rw [if_neg (by omega)] at hlen
    have hclog := Nat.log_le_clog 2 (hR + 1 - 1).toNat
    have heq : (hR + 1 - 1).toNat = hR.toNat := by omega
    rw [heq] at hlen hclog
    omega

/-- Witness for C3 at concrete one-height sources. -/
theorem c3_witness :
    (1:Int) ≤ 1 ∧
    (((findClosestBlockArweaveTrace ⟨.ok 1, fun _ => .ok 0⟩ 5).2.2.length ≤
        Nat.clog 2 (1:Int).toNat + 1 ∧
      (findClosestBlockArweaveTrace ⟨.ok 1, fun _ => .ok 0⟩ 5).2.1 = 1 ∧
      (findClosestBlockArweaveTrace ⟨.ok 1, fun _ => .ok 0⟩ 5).1 =
        findClosestBlockArweave ⟨.ok 1, fun _ => .ok 0⟩ 5) ∧
     ((findClosestBlockRPCTrace ⟨.ok 1, fun _ => .ok ("0x0")⟩ 5).2.2.length ≤
        Nat.clog 2 (1:Int).toNat + 1 ∧
      (findClosestBlockRPCTrace ⟨.ok 1, fun _ => .ok ("0x0")⟩ 5).2.1 = 1 ∧
      (findClosestBlockRPCTrace ⟨.ok 1, fun _ => .ok ("0x0")⟩ 5).1 =
        findClosestBlockRPC ⟨.ok 1, fun _ => .ok ("0x0")⟩ 5)) :=
  ⟨by norm_num,
    c3_fetch_bounds ⟨.ok 1, fun _ => .ok 0⟩ ⟨.ok 1, fun _ => .ok ("0x0")⟩ 5 1 1
      rfl (by norm_num) rfl (by norm_num)⟩

/-- C4: a failing head-height fetch makes either search return the error at
once with no timestamp fetch issued; a run that ends in a fetch error probed
the failing height last, with every earlier probe succeeding, and the error
message carries that height in decimal; a run that returns a height issued
only successful fetches.  No error outcome carries a height. -/
theorem c4_fetch_failure_aborts (client : ArSource) (rpcClient : RpcSource)
    (t : Int) :
    (∀ e, client.getBlockHeight = .error e →
      findClosestBlockArweaveTrace client t =
        (.error (("error getting latest block height: ") ++ e), 1, [])) ∧
    (∀ hA msg, client.getBlockHeight = .ok hA →
      (findClosestBlockArweaveTrace client t).1 = .error msg →
      ∃ ps m c, (findClosestBlockArweaveTrace client t).2.2 = ps ++ [m] ∧
        client.getBlockByHeight m = .error c ∧
        msg = ("error getting block ") ++ toString m ++ (": ") ++ c ∧
        (∀ p ∈ ps, ∃ v, client.getBlockByHeight p = .ok v)) ∧
    (∀ r, (findClosestBlockArweaveTrace client t).1 = .ok r →
      ∀ p ∈ (findClosestBlockArweaveTrace client t).2.2,
        ∃ v, client.getBlockByHeight p = .ok v) ∧
    (∀ e, rpcClient.blockNumber = .error e →
      findClosestBlockRPCTrace rpcClient t =
        (.err (("error getting latest block number: ") ++ e), 1, [])) ∧
    (∀ hR msg, rpcClient.blockNumber = .ok hR →
      (findClosestBlockRPCTrace rpcClient t).1 = .err msg →
      ∃ ps m c, (findClosestBlockRPCTrace rpcClient t).2.2 = ps ++ [m] ∧
        rpcClient.getBlock m = .error c ∧
        msg = ("error getting block ") ++ toString m ++ (": ") ++ c ∧
        (∀ p ∈ ps, ∃ v, rpcClient.getBlock p = .ok v)) ∧
    (∀ r, (findClosestBlockRPCTrace rpcClient t).1 = .ok r →
      ∀ p ∈ (findClosestBlockRPCTrace rpcClient t).2.2,
        ∃ v, rpcClient.getBlock p = .ok v) := by
  refine ⟨?_, ?_, ?_, ?_, ?_, ?_⟩
  · intro e he
    unfold findClosestBlockArweaveTrace
    rw [he]
  · intro hA msg hh hmsg
    unfold findClosestBlockArweaveTrace at hmsg ⊢
    rw [hh] at hmsg ⊢
    dsimp only at hmsg ⊢
    exact arLoopTrace_err client t 1 hA msg hmsg
  · intro r hr p hp
    unfold findClosestBlockArweaveTrace at hr hp
    cases hh : client.getBlockHeight with
    | error e =>
      rw [hh] at hr
      simp at hr
    | ok hA =>
      rw [hh] at hr hp
      dsimp only at hr hp
      exact arLoopTrace_ok client t 1 hA r hr p hp
  · intro e he
    unfold findClosestBlockRPCTrace
    rw [he]
  · intro hR msg hh hmsg
    unfold findClosestBlockRPCTrace at hmsg ⊢
    rw [hh] at hmsg ⊢
    dsimp only at hmsg ⊢
    exact rpcLoopTrace_err rpcClient t 1 hR msg hmsg
  · intro r hr p hp
    unfold findClosestBlockRPCTrace at hr hp
    cases hh : rpcClient.blockNumber with
    | error e =>
      rw [hh] at hr
      simp at hr
    | ok hR =>
      rw [hh] at hr hp
      dsimp only at hr hp
      exact rpcLoopTrace_ok rpcClient t 1 hR r hr p hp

/-- Witness for C4: a failing head fetch on the Arweave side aborts with the
connection error and no probe, and a failing probe at height 1 on the EVM
side aborts with a message naming height 1. -/
theorem c4_witness :
    (findClosestBlockArweaveTrace ⟨.error ("dial"), fun _ => .ok 0⟩ 5 =
      (.error (("error getting latest block height: ") ++ ("dial")), 1, [])) ∧
    (∃ ps m c,
      (findClosestBlockRPCTrace ⟨.ok 1, fun _ => .error ("boom")⟩ 5).2.2 =
        ps ++ [m] ∧
      (⟨.ok 1, fun _ => .error ("boom")⟩ : RpcSource).getBlock m = .error c ∧
      (("error getting block ") ++ toString ((1 + 1 : Int) / 2) ++ (": ") ++ ("boom")) =
        ("error getting block ") ++ toString m ++ (": ") ++ c ∧
      (∀ p ∈ ps, ∃ v,
        (⟨.ok 1, fun _ => .error ("boom")⟩ : RpcSource).getBlock p = .ok v)) := by
  constructor
  · exact (c4_fetch_failure_aborts ⟨.error ("dial"), fun _ => .ok 0⟩
      ⟨.ok 1, fun _ => .ok ("0x0")⟩ 5).1 ("dial") rfl
  · refine (c4_fetch_failure_aborts ⟨.error ("dial"), fun _ => .ok 0⟩
      ⟨.ok 1, fun _ => .error ("boom")⟩ 5).2.2.2.2.1 1
      (("error getting block ") ++ toString ((1 + 1 : Int) / 2) ++ (": ") ++ ("boom"))
      rfl ?_
    unfold findClosestBlockRPCTrace
    dsimp only
    rw [rpcLoopTrace, dif_pos (by norm_num)]

/-- On sources whose decoded timestamps all fit in int64, the truncating
loop of the program coincides with the full-precision loop. -/
theorem rpcLoop_eq_exact (rpcClient : RpcSource) (t : Int)
    (hrng : ∀ h s v, rpcClient.getBlock h = .ok s → decodeBig s = some v →
      -(2 ^ 63) ≤ v ∧ v < 2 ^ 63) :
    ∀ low high,
    rpcLoop rpcClient t low high = rpcLoopExact rpcClient t low high := by
  intro low high
  induction low, high using rpcLoop.induct rpcClient t with
  | case1 low high hle e heq =>
    rw [rpcLoop, rpcLoopExact, dif_pos hle, dif_pos hle, heq]
  | case2 low high hle s heq hdnone =>
    rw [rpcLoop, rpcLoopExact, dif_pos hle, dif_pos hle, heq]
    dsimp only
    rw [hdnone]
  | case3 low high hle s heq bt hdsome hcmp =>
    rw [rpcLoop, rpcLoopExact, dif_pos hle, dif_pos hle, heq]
    dsimp only
    rw [hdsome]
    dsimp only
    have hr2 := hrng _ _ _ heq hdsome
    have hid := bigIntToInt64_of_int64 hr2.1 hr2.2
    rw [hid] at hcmp
    rw [hid, if_pos hcmp, if_pos hcmp]
  | case4 low high hle s heq bt hdsome hne hlt ih =>
    rw [rpcLoop, rpcLoopExact, dif_pos hle, dif_pos hle, heq]
    dsimp only
    rw [hdsome]
    dsimp only
    have hr2 := hrng _ _ _ heq hdsome
    have hid := bigIntToInt64_of_int64 hr2.1 hr2.2
    rw [hid] at hne hlt
    rw [hid, if_neg hne, if_neg hne, if_pos hlt, if_pos hlt]
    exact ih
  | case5 low high hle s heq bt hdsome hne hlt ih =>
    rw [rpcLoop, rpcLoopExact, dif_pos hle, dif_pos hle, heq]
    dsimp only
    rw [hdsome]
    dsimp only
    have hr2 := hrng _ _ _ heq hdsome
    have hid := bigIntToInt64_of_int64 hr2.1 hr2.2
    rw [hid] at hne hlt
    rw [hid, if_neg hne, if_neg hne, if_neg hlt, if_neg hlt]
    exact ih
  | case6 low high hle =>
    rw [rpcLoop, rpcLoopExact, dif_neg hle, dif_neg hle]

/-- C7 counterexample: a monotone source on three heights whose upper
timestamps exceed the signed 64-bit range.  The code, which compares through
big.Int.Int64, wraps those timestamps (2 ^ 64 + 5 becomes 5) and walks
right, returning height 4, while the full-precision comparison the claim
describes returns height 2; the recorded-height conversion wraps the same
way.  So decoded values are not compared or recorded without truncation or
wrap-around. -/
theorem c7_counterexample :
    findClosestBlockRPC
      ⟨.ok 3, fun h => .ok (if h = 1 then ("0x64")
        else if h = 2 then ("0x10000000000000005")
        else ("0x10000000000000007"))⟩ targetTimestamp = .ok 4 ∧
    findClosestBlockRPCExact
      ⟨.ok 3, fun h => .ok (if h = 1 then ("0x64")
        else if h = 2 then ("0x10000000000000005")
        else ("0x10000000000000007"))⟩ targetTimestamp = .ok 2 ∧
    decodeBig ("0x10000000000000005") = some (2 ^ 64 + 5) ∧
    bigIntToInt64 (2 ^ 64 + 5) = 5 ∧
    (2:Int) ^ 64 + 5 ≠ 5 := by
  have hd1 : decodeBig ("0x64") = some 100 := by decide
  have hd2 : decodeBig ("0x10000000000000005") = some 18446744073709551621 := by
    decide
  have hd3 : decodeBig ("0x10000000000000007") = some 18446744073709551623 := by
    decide
  have hb1 : bigIntToInt64 100 = 100 := by decide
  have hb2 : bigIntToInt64 18446744073709551621 = 5 := by decide
  have hb3 : bigIntToInt64 18446744073709551623 = 7 := by decide
  refine ⟨?_, ?_, by decide, by decide, by decide⟩
  · unfold findClosestBlockRPC
    dsimp only
    rw [rpcLoop, dif_pos (by norm_num)]
    norm_num
    rw [hd2]
    dsimp only
    rw [hb2]
    rw [if_neg (by decide), if_pos (by decide)]
    rw [rpcLoop, dif_pos (by norm_num)]
    norm_num
    rw [hd3]
    dsimp only
    rw [hb3]
    rw [if_neg (by decide), if_pos (by decide)]
    rw [rpcLoop, dif_neg (by norm_num)]
  · unfold findClosestBlockRPCExact
    dsimp only
    rw [rpcLoopExact, dif_pos (by norm_num)]
    norm_num
    rw [hd2]
    dsimp only
    rw [if_neg (by decide), if_neg (by decide)]
    rw [rpcLoopExact, dif_pos (by norm_num)]
    norm_num
    rw [hd1]
    dsimp only
    rw [if_neg (by decide), if_pos (by decide)]
    rw [rpcLoopExact, dif_neg (by norm_num)]

/-- C7 amended: the search bounds and probed heights are held in big.Int at
full precision throughout, but each decoded timestamp is compared through
big.Int.Int64 and the resulting height is recorded through big.Int.Int64 by
main; that conversion is the identity exactly on the signed 64-bit range, so
on every source whose decoded timestamps fit in int64 the search of the
program agrees with the full-precision description of the spec, and values
inside int64 are never truncated. -/
theorem c7_amended_exact_within_int64 (rpcClient : RpcSource) (t : Int)
    (hrng : ∀ h s v, rpcClient.getBlock h = .ok s → decodeBig s = some v →
      -(2 ^ 63) ≤ v ∧ v < 2 ^ 63) :
    findClosestBlockRPC rpcClient t = findClosestBlockRPCExact rpcClient t ∧
    (∀ v, -(2 ^ 63) ≤ v → v < 2 ^ 63 → bigIntToInt64 v = v) := by
  constructor
  · unfold findClosestBlockRPC findClosestBlockRPCExact
    cases hh : rpcClient.blockNumber with
    | error e => rfl
    | ok hR =>
      dsimp only
      exact rpcLoop_eq_exact rpcClient t hrng 1 hR
  · intro v h1 h2
    exact bigIntToInt64_of_int64 h1 h2

/-- Witness for C7 amended, at a one-height source with an in-range
timestamp. -/
theorem c7_amended_witness :
    findClosestBlockRPC ⟨.ok 1, fun _ => .ok ("0x64")⟩ 5 =
      findClosestBlockRPCExact ⟨.ok 1, fun _ => .ok ("0x64")⟩ 5 ∧
    (∀ v, -(2 ^ 63) ≤ v → v < 2 ^ 63 → bigIntToInt64 v = v) :=
  c7_amended_exact_within_int64 ⟨.ok 1, fun _ => .ok ("0x64")⟩ 5
    (by
      intro h s v hs hv
      injection hs with hs2
      rw [← hs2] at hv
      have : v = 100 := by
        have hd : decodeBig ("0x64") = some 100 := by decide
        rw [hd] at hv
        injection hv with h3
        exact h3.symm
      subst this
      constructor <;> decide)

/-- C8: the claim says a malformed timestamp field makes findClosestBlockRPC
surface an error instead of crashing; in the code the hexutil.DecodeBig
error is discarded at src/main.go line 52 and the following Int64 call
dereferences the nil pointer, a runtime panic.  At a source whose block
response carries the undecodable timestamp xyz, the embedded run crashes. -/
theorem c8_malformed_timestamp_crashes :
    findClosestBlockRPC ⟨.ok 1, fun _ => .ok ("xyz")⟩ targetTimestamp =
      .crash := by
  unfold findClosestBlockRPC
  dsimp only
  rw [rpcLoop, dif_pos (by norm_num)]
  dsimp only
  rw [show decodeBig ("xyz") = none from by decide]

/-- C5: the claim says every per-network failure is skipped and the process
never terminates on one; but a network whose post-search detail fetch
returns a block with a malformed timestamp field panics the process, because
the hexutil.DecodeBig error is discarded at src/main.go line 418 and line
421 dereferences the nil pointer.  Concretely: the first network dials,
passes the check and finds height 2, but its detail fetch returns timestamp
xyz; the hardened run aborts (none), the second network is never processed
and nothing is written. -/
theorem c5_malformed_detail_panics :
    runHardened (fun _ => some 7)
      [(("linea"), .eth none none ⟨.ok 1, fun _ => .ok ("0x64")⟩
          (fun _ => .ok ("xyz"))),
       (("base"), .eth none none ⟨.ok 1, fun _ => .ok ("0x64")⟩
          (fun _ => .ok ("0x64")))] = none := by
  have hsearch : findClosestBlockRPC ⟨.ok 1, fun _ => .ok ("0x64")⟩
      targetTimestamp = .ok 2 := by
    unfold findClosestBlockRPC
    dsimp only
    rw [rpcLoop, dif_pos (by norm_num)]
    norm_num
    rw [show decodeBig ("0x64") = some 100 from by decide]
    dsimp only
    rw [show bigIntToInt64 100 = 100 from by decide]
    rw [if_neg (by decide), if_pos (by decide)]
    rw [rpcLoop, dif_neg (by norm_num)]
  have hstep : stepNetwork (fun _ => some 7) ("linea")
      (.eth none none ⟨.ok 1, fun _ => .ok ("0x64")⟩ (fun _ => .ok ("xyz"))) =
      none := by
    unfold stepNetwork
    dsimp only
    rw [hsearch]
    dsimp only
    rw [show decodeBig ("xyz") = none from by decide]
  have hrn : runNetworks (fun _ => some 7)
      [(("linea"), .eth none none ⟨.ok 1, fun _ => .ok ("0x64")⟩
          (fun _ => .ok ("xyz"))),
       (("base"), .eth none none ⟨.ok 1, fun _ => .ok ("0x64")⟩
          (fun _ => .ok ("0x64")))] = none := by
    unfold runNetworks
    rw [hstep]
  unfold runHardened
  rw [hrn]

/-- C9: whenever the per-network loop of the hardened variant completes, the
entry farcaster of the mapping is unconditionally set to the target minus
9 * 30 * 24 * 60 * 60 seconds, the timestamp value 1693872000 (not a
searched block height), overwriting any existing value, regardless of the
initial mapping and of the outcome of every search. -/
theorem c9_farcaster_unconditional (cfg : Cfg)
    (nets : List (String × NetWorld)) (cfg2 : Cfg)
    (h : runHardened cfg nets = some cfg2) :
    cfg2 ("farcaster") = some farcasterTimestamp ∧
    farcasterTimestamp = 1693872000 ∧
    farcasterTimestamp = targetTimestamp - 9 * 30 * 24 * 60 * 60 := by
  refine ⟨?_, by decide, rfl⟩
  unfold runHardened at h
  cases hrn : runNetworks cfg nets with
  | none =>
    rw [hrn] at h
    simp at h
  | some cfgl =>
    rw [hrn] at h
    dsimp only at h
    injection h with h2
    rw [← h2]
    unfold setCfg
    rw [if_pos rfl]

/-- Witness for C9: an empty network list and an initial mapping that
already carries a farcaster value, which the run overwrites. -/
theorem c9_witness :
    (setCfg (fun _ => some 5) ("farcaster") farcasterTimestamp) ("farcaster") =
      some farcasterTimestamp ∧
    farcasterTimestamp = 1693872000 ∧
    farcasterTimestamp = targetTimestamp - 9 * 30 * 24 * 60 * 60 :=
  c9_farcaster_unconditional (fun _ => some 5) [] _ rfl

/-- C6 counterexample: a document with an unrelated top-level key, processed
by a run with no networks, is written back without that key: the Go struct
Config declares only network_start_block, so the unmarshal-marshal
round-trip drops every other top-level key instead of passing it through
verbatim. -/
theorem c6_counterexample :
    ∃ d2, writtenDoc ⟨fun _ => none, [(("custom_key"), ("42"))]⟩ [] = some d2 ∧
      d2.extra ≠ [(("custom_key"), ("42"))] :=
  ⟨marshalConfig (fun _ => none), rfl, by decide⟩

/-- C6 amended: the document written at the end of a completed run contains
the whole final mapping of the loop, in which every original
network_start_block entry is still present (processed networks
overwritten), but no other top-level key of the original document survives:
the written document has exactly the network_start_block field. -/
theorem c6_amended_nsb_preserved_extra_dropped (d : JsonDoc)
    (nets : List (String × NetWorld)) (d2 : JsonDoc)
    (hw : writtenDoc d nets = some d2) :
    d2.extra = [] ∧
    (∀ k v, d.networkStartBlock k = some v →
      ∃ u, d2.networkStartBlock k = some u) ∧
    (∃ cfg, runNetworks (unmarshalConfig d) nets = some cfg ∧
      d2.networkStartBlock = cfg) := by
  unfold writtenDoc at hw
  cases hrn : runNetworks (unmarshalConfig d) nets with
  | none =>
    rw [hrn] at hw
    simp at hw
  | some cfg =>
    rw [hrn] at hw
    dsimp only at hw
    injection hw with h2
    subst h2
    refine ⟨rfl, ?_, cfg, rfl, rfl⟩
    intro k v hk
    exact runNetworks_preserves nets _ cfg hrn k v hk

/-- Witness for C6 amended at a concrete document and an empty network
list. -/
theorem c6_amended_witness :
    (marshalConfig (fun _ => some 3)).extra = [] ∧
    (∀ k v, (⟨fun _ => some 3, [(("a"), ("b"))]⟩ : JsonDoc).networkStartBlock k =
        some v →
      ∃ u, (marshalConfig (fun _ => some 3)).networkStartBlock k = some u) ∧
    (∃ cfg, runNetworks
        (unmarshalConfig ⟨fun _ => some 3, [(("a"), ("b"))]⟩) [] = some cfg ∧
      (marshalConfig (fun _ => some 3)).networkStartBlock = cfg) :=
  c6_amended_nsb_preserved_extra_dropped ⟨fun _ => some 3, [(("a"), ("b"))]⟩ []
    (marshalConfig (fun _ => some 3)) rfl

/-- C10: in the original variant, after config.json is read and parsed, a
failing rename is fatal; on a successful rename the state that persists
through the whole per-network loop (which performs no file-system
operation) has no config.json and holds the original contents at
config.json.old, until the final successful write restores config.json;
runs that panic in the loop or fail the write leave config.json absent. -/
theorem c10_rename_window (fs : Fs) (parse : String → Option Cfg)
    (nets : List (String × NetWorld)) (writeOk : Bool)
    (render : Cfg → String) :
    (∀ content cfg, fs ("config.json") = some content →
      parse content = some cfg →
      origMainFs fs true parse nets false writeOk render = .fatalRename) ∧
    (∀ envOk renameOk fsMid fsFinal,
      origMainFs fs envOk parse nets renameOk writeOk render =
        .done fsMid fsFinal →
      fsMid ("config.json") = none ∧
      fsMid ("config.json.old") = fs ("config.json") ∧
      fsFinal ("config.json") ≠ none) ∧
    (∀ envOk renameOk fsMid,
      (origMainFs fs envOk parse nets renameOk writeOk render =
        .netCrash fsMid ∨
       origMainFs fs envOk parse nets renameOk writeOk render =
        .fatalWrite fsMid) →
      fsMid ("config.json") = none ∧
      fsMid ("config.json.old") = fs ("config.json")) := by
  refine ⟨?_, ?_, ?_⟩
  · intro content cfg hc hp
    unfold origMainFs
    rw [if_neg (by decide), hc]
    dsimp only
    rw [hp]
    dsimp only
    rw [if_pos rfl]
  · intro envOk renameOk fsMid fsFinal h
    unfold origMainFs at h
    repeat' split at h
    all_goals cases h
    all_goals
      refine ⟨?_, ?_, ?_⟩
      · unfold renameFile
        rw [if_neg (by decide), if_pos rfl]
      · unfold renameFile
        rw [if_pos rfl]
      · dsimp only
        rw [if_pos rfl]
        simp
  · intro envOk renameOk fsMid h
    rcases h with h | h <;>
      (unfold origMainFs at h
       repeat' split at h) <;>
      cases h <;>
      exact ⟨by unfold renameFile; rw [if_neg (by decide), if_pos rfl],
        by unfold renameFile; rw [if_pos rfl]⟩

/-- Witness for C10: a concrete file system holding config.json, a parser
that accepts it, and a failing rename: the run is fatal at the rename. -/
theorem c10_witness :
    origMainFs (fun p => if p = ("config.json") then some ("content") else none)
      true (fun _ => some (fun _ => none)) [] false true (fun _ => ("out")) =
      .fatalRename :=
  (c10_rename_window (fun p => if p = ("config.json") then some ("content") else none)
    (fun _ => some (fun _ => none)) [] true (fun _ => ("out"))).1
    ("content") (fun _ => none) rfl rfl

end NetworkParams

